import Mathlib

/-!
Shallow embedding of the simple-pubsub inventory event bus
(queue-based variant, the complete implementation with all four
subscriber roles).  Events and machines are modelled as inductive
data; the mutable machine array becomes explicit list-passing, and
each subscriber's `handle` returns the updated machine list together
with an optional cascade event.  The publish/subscribe service's
`Map<string, Set<ISubscriber>>` becomes an association list whose
values are duplicate-free insertion-ordered lists.
-/

namespace SimplePubSub

/-- The closed set of event variants.  `sale` and `refill` carry a
quantity (a TS `number`, modelled as `Int` since stock may go
negative and quantities are never validated). -/
inductive IEvent where
  | sale (sold : Int) (machineId : String)
  | refill (refillQty : Int) (machineId : String)
  | lowStockWarning (machineId : String)
  | stockLevelOk (machineId : String)
deriving DecidableEq

/-- `type()` of each event class: the string tag used as the key of
the subscription map. -/
def IEvent.type : IEvent → String
  | .sale _ _ => "sale"
  | .refill _ _ => "refill"
  | .lowStockWarning _ => "LowStock"
  | .stockLevelOk _ => "StockLevelOk"

/-- `machineId()` of each event class. -/
def IEvent.machineId : IEvent → String
  | .sale _ m => m
  | .refill _ m => m
  | .lowStockWarning m => m
  | .stockLevelOk m => m

/-- A machine: an id and a mutable stock level. -/
structure Machine where
  id : String
  stockLevel : Int
deriving DecidableEq

/-- The driver constructs every machine with stock level 3
(`public stockLevel = 3`). -/
def Machine.mk3 (id : String) : Machine := ⟨id, 3⟩

/-- `this.machines.find((m) => m.id === event.machineId())`: first
machine in the array whose id matches. -/
def findMachine (machines : List Machine) (mid : String) : Option Machine :=
  machines.find? (fun m => m.id == mid)

/-- In-place mutation of the machine found by `find`: the first
machine whose id matches gets its stock level updated by `f`; the
rest of the array is untouched. -/
def updateStock : List Machine → String → (Int → Int) → List Machine
  | [], _, _ => []
  | m :: rest, mid, f =>
    if m.id == mid then { m with stockLevel := f m.stockLevel } :: rest
    else m :: updateStock rest mid f

/-- `MachineSaleSubscriber.handle`: on a `sale` event (checked by
`instanceof`), find the machine; if present, decrement its stock by
the sold quantity, and return a `LowStockWarning` exactly when the
post-decrement level is below 3 while the pre-decrement level was at
least 3.  Any other event variant, or an unknown machine id, is a
no-op returning nothing. -/
def MachineSaleSubscriber.handle (machines : List Machine) (event : IEvent) :
    List Machine × Option IEvent :=
  match event with
  | .sale sold mid =>
    match findMachine machines mid with
    | some machine =>
      let oldLevel := machine.stockLevel
      let machines' := updateStock machines mid (fun s => s - sold)
      if machine.stockLevel - sold < 3 ∧ 3 ≤ oldLevel then
        (machines', some (.lowStockWarning machine.id))
      else
        (machines', none)
    | none => (machines, none)
  | _ => (machines, none)

/-- `MachineRefillSubscriber.handle`: on a `refill` event, find the
machine; if present, increment its stock by the refill quantity, and
return a `StockLevelOk` exactly when the post-increment level is at
least 3 while the pre-increment level was below 3. -/
def MachineRefillSubscriber.handle (machines : List Machine) (event : IEvent) :
    List Machine × Option IEvent :=
  match event with
  | .refill qty mid =>
    match findMachine machines mid with
    | some machine =>
      let oldLevel := machine.stockLevel
      let machines' := updateStock machines mid (fun s => s + qty)
      if 3 ≤ machine.stockLevel + qty ∧ oldLevel < 3 then
        (machines', some (.stockLevelOk machine.id))
      else
        (machines', none)
    | none => (machines, none)
  | _ => (machines, none)

/-- `StockwarningSubscriber.handle`: on a `LowStockWarning`, find the
machine and return a `Refill` event of quantity `3 - stockLevel`;
machines are not mutated. -/
def StockwarningSubscriber.handle (machines : List Machine) (event : IEvent) :
    List Machine × Option IEvent :=
  match event with
  | .lowStockWarning mid =>
    match findMachine machines mid with
    | some machine => (machines, some (.refill (3 - machine.stockLevel) machine.id))
    | none => (machines, none)
  | _ => (machines, none)

/-- `StockLevelOkSubscriber.handle`: acknowledges the event (the body
only logs; the machine branch is an empty TODO) and never returns a
cascade. -/
def StockLevelOkSubscriber.handle (machines : List Machine) (event : IEvent) :
    List Machine × Option IEvent :=
  match event with
  | .stockLevelOk _ => (machines, none)
  | _ => (machines, none)

/-- Subscriber identities: the four handler objects the driver
constructs (each closing over the shared machine array). -/
inductive Subscriber where
  | machineSale
  | machineRefill
  | stockWarning
  | stockLevelOkSub
deriving DecidableEq

/-- Dispatch `handle` on the subscriber object. -/
def Subscriber.handle : Subscriber → List Machine → IEvent → List Machine × Option IEvent
  | .machineSale, ms, e => MachineSaleSubscriber.handle ms e
  | .machineRefill, ms, e => MachineRefillSubscriber.handle ms e
  | .stockWarning, ms, e => StockwarningSubscriber.handle ms e
  | .stockLevelOkSub, ms, e => StockLevelOkSubscriber.handle ms e

/-- The service state `Map<string, Set<ISubscriber>>`: an association
list from event type to the insertion-ordered, duplicate-free list of
subscribers. -/
abbrev SubscriberMap := List (String × List Subscriber)

namespace PublishSubscribeService

/-- `Set.add`: appends the element unless it is already a member
(JS `Set` semantics, insertion order preserved). -/
def setAdd (s : List Subscriber) (x : Subscriber) : List Subscriber :=
  if x ∈ s then s else s ++ [x]

/-- `subscribe(eventType, subscriber)`: create an empty set for the
type if absent, then `add` the subscriber to it. -/
def subscribe : SubscriberMap → String → Subscriber → SubscriberMap
  | [], eventType, subscriber => [(eventType, setAdd [] subscriber)]
  | (t, s) :: rest, eventType, subscriber =>
    if t == eventType then (t, setAdd s subscriber) :: rest
    else (t, s) :: subscribe rest eventType subscriber

/-- `unsubscribe(eventType, subscriber)`: delete the subscriber from
the type's set if the set exists; otherwise do nothing. -/
def unsubscribe : SubscriberMap → String → Subscriber → SubscriberMap
  | [], _, _ => []
  | (t, s) :: rest, eventType, subscriber =>
    if t == eventType then (t, s.erase subscriber) :: rest
    else (t, s) :: unsubscribe rest eventType subscriber

/-- `this.subscribers.get(type)`: `Map.get`, `none` when the key is
absent. -/
def mapGet : SubscriberMap → String → Option (List Subscriber)
  | [], _ => none
  | (t, s) :: rest, ty => if t == ty then some s else mapGet rest ty

/-- The `subscribers.forEach` loop inside `publish`: invoke `handle`
on each subscriber in insertion order, threading the machine array,
and push each returned cascade event onto the back of the
caller-owned pending list. -/
def runHandlers : List Subscriber → IEvent → List Machine → List IEvent →
    List Machine × List IEvent
  | [], _, machines, events => (machines, events)
  | sub :: rest, event, machines, events =>
    match Subscriber.handle sub machines event with
    | (machines', some newEvent) => runHandlers rest event machines' (events ++ [newEvent])
    | (machines', none) => runHandlers rest event machines' events

/-- `publish(event, events)` of the queue-based variant: look up the
subscriber set for `event.type()`; if absent, do nothing; otherwise
run every subscriber, pushing cascades onto the pending list
`events`. -/
def publish (subs : SubscriberMap) (event : IEvent) (machines : List Machine)
    (events : List IEvent) : List Machine × List IEvent :=
  match mapGet subs event.type with
  | some subscriberSet => runHandlers subscriberSet event machines events
  | none => (machines, events)

end PublishSubscribeService

open PublishSubscribeService

/-- The driver's drain loop
`while (events.length > 0) pubSubService.publish(events.shift(), events)`,
with an explicit fuel bound so the function is total.  Returns the
final machine array, the trace of events delivered (in delivery
order), and the events left pending when fuel ran out (empty
whenever the loop terminated by exhausting the queue). -/
def drain (subs : SubscriberMap) : Nat → List Machine → List IEvent →
    List Machine × List IEvent × List IEvent
  | _, machines, [] => (machines, [], [])
  | 0, machines, events => (machines, [], events)
  | fuel + 1, machines, e :: rest =>
    match publish subs e machines rest with
    | (machines', pending) =>
      match drain subs fuel machines' pending with
      | (finalMachines, trace, leftover) => (finalMachines, e :: trace, leftover)

/-- The driver's registration of the four subscriber roles:
sale, refill, LowStock and StockLevelOk, in program order. -/
def initSubs : SubscriberMap :=
  subscribe (subscribe (subscribe (subscribe [] "sale" .machineSale)
    "refill" .machineRefill) "LowStock" .stockWarning) "StockLevelOk" .stockLevelOkSub

/-- The full mutable state of the service plus the driver's pending
list: the subscription map, the shared machine array, and the
caller-owned event queue. -/
structure BusState where
  subscribers : SubscriberMap
  machines : List Machine
  events : List IEvent
deriving DecidableEq

/-- `publish` as a transformer of the full service state: the method
reads `this.subscribers` but assigns only to the machine array (via
the handlers) and the pending list. -/
def publishB (s : BusState) (e : IEvent) : BusState :=
  match mapGet s.subscribers e.type with
  | some subscriberSet =>
    let r := runHandlers subscriberSet e s.machines s.events
    { s with machines := r.1, events := r.2 }
  | none => s

/-- The drain loop over the full service state. -/
def drainB : Nat → BusState → BusState
  | 0, s => s
  | fuel + 1, s =>
    match s.events with
    | [] => s
    | e :: rest => drainB fuel (publishB { s with events := rest } e)

/-- Whether an event is of the variant a subscriber is specialized to
(the `instanceof` check at the top of each `handle`). -/
def expectedVariant : Subscriber → IEvent → Bool
  | .machineSale, .sale _ _ => true
  | .machineRefill, .refill _ _ => true
  | .stockWarning, .lowStockWarning _ => true
  | .stockLevelOkSub, .stockLevelOk _ => true
  | _, _ => false

/-- The list of subscribers `publish` invokes, in `forEach` order,
for a given event: the set registered under `event.type()`, or
nothing when no entry exists. -/
def publishInvocations (subs : SubscriberMap) (event : IEvent) : List Subscriber :=
  (mapGet subs event.type).getD []

/- ### Helper lemmas -/

/-- A machine returned by `find` has the looked-up id. -/
theorem findMachine_id {machines : List Machine} {mid : String} {m : Machine}
    (h : findMachine machines mid = some m) : m.id = mid := by
  simp only [findMachine] at h
  simpa using List.find?_some h

/-- After updating the stock of the found machine, `find` returns
that machine with the updated stock level. -/
theorem findMachine_updateStock {machines : List Machine} {mid : String} {m : Machine}
    (f : Int → Int) (h : findMachine machines mid = some m) :
    findMachine (updateStock machines mid f) mid
      = some { m with stockLevel := f m.stockLevel } := by
  induction machines with
  | nil => simp [findMachine] at h
  | cons m0 rest ih =>
    by_cases hid : m0.id = mid
    · subst hid
      simp only [findMachine, List.find?, beq_self_eq_true] at h ⊢
      obtain rfl : m0 = m := by simpa using h
      simp [updateStock, findMachine, List.find?]
    · have hne : (m0.id == mid) = false := by simpa using hid
      simp only [findMachine, List.find?, hne] at h ⊢
      simp only [updateStock, hne, if_false, Bool.false_eq_true]
      simpa [findMachine, List.find?, hne] using ih h

/-- `MachineSaleSubscriber.handle` on a `sale` with a known machine:
the machine list gets the decrement and the result is a warning
exactly on a downward crossing. -/
theorem sale_handle_eq {machines : List Machine} {mid : String} {m : Machine}
    (sold : Int) (h : findMachine machines mid = some m) :
    MachineSaleSubscriber.handle machines (.sale sold mid)
      = (updateStock machines mid (fun s => s - sold),
         if m.stockLevel - sold < 3 ∧ 3 ≤ m.stockLevel
         then some (.lowStockWarning m.id) else none) := by
  by_cases hc : m.stockLevel - sold < 3 ∧ 3 ≤ m.stockLevel <;>
    simp [MachineSaleSubscriber.handle, h, hc]

/-- `MachineRefillSubscriber.handle` on a `refill` with a known
machine: the machine list gets the increment and the result is a
`StockLevelOk` exactly on an upward crossing. -/
theorem refill_handle_eq {machines : List Machine} {mid : String} {m : Machine}
    (qty : Int) (h : findMachine machines mid = some m) :
    MachineRefillSubscriber.handle machines (.refill qty mid)
      = (updateStock machines mid (fun s => s + qty),
         if 3 ≤ m.stockLevel + qty ∧ m.stockLevel < 3
         then some (.stockLevelOk m.id) else none) := by
  by_cases hc : 3 ≤ m.stockLevel + qty ∧ m.stockLevel < 3 <;>
    simp [MachineRefillSubscriber.handle, h, hc]

/- ### Claim theorems -/

/-- C1: for every machine registered in the registry and every Sale
event targeting it, handling the Sale decrements that machine's stock
by the sale quantity, and returns a `LowStockWarning` for that machine
if and only if the stock was at least 3 before the decrement and below
3 after it; in particular a Sale handled while the stock is already
below 3 returns no warning. -/
theorem sale_handle_correct (machines : List Machine) (sold : Int) (mid : String)
    (m : Machine) (hfind : findMachine machines mid = some m) :
    findMachine (MachineSaleSubscriber.handle machines (.sale sold mid)).1 mid
      = some { m with stockLevel := m.stockLevel - sold }
    ∧ ((MachineSaleSubscriber.handle machines (.sale sold mid)).2
        = some (.lowStockWarning mid)
      ↔ (3 ≤ m.stockLevel ∧ m.stockLevel - sold < 3))
    ∧ (m.stockLevel < 3 →
        (MachineSaleSubscriber.handle machines (.sale sold mid)).2 = none) := by
  have hid := findMachine_id hfind
  rw [sale_handle_eq sold hfind]
  refine ⟨findMachine_updateStock _ hfind, ?_, ?_⟩
  · by_cases hc : m.stockLevel - sold < 3 ∧ 3 ≤ m.stockLevel
    · simp [hc, hid]
    · simp [hc, hid]
      omega
  · intro hlow
    have hc : ¬ (m.stockLevel - sold < 3 ∧ 3 ≤ m.stockLevel) := by omega
    simp [hc]

/-- Witness for C1: machine at stock 3, sale of 2 crosses downward. -/
theorem sale_handle_correct_witness :
    findMachine [⟨"001", 3⟩] "001" = some ⟨"001", 3⟩
    ∧ ((MachineSaleSubscriber.handle [⟨"001", 3⟩] (.sale 2 "001")).2
        = some (.lowStockWarning "001")
      ↔ (3 ≤ (⟨"001", 3⟩ : Machine).stockLevel
          ∧ (⟨"001", 3⟩ : Machine).stockLevel - 2 < 3)) :=
  ⟨by decide, (sale_handle_correct [⟨"001", 3⟩] 2 "001" ⟨"001", 3⟩ (by decide)).2.1⟩

/-- C2: for every machine registered in the registry and every Refill
event targeting it, handling the Refill increments that machine's
stock by the refill quantity, and returns a `StockLevelOk` for that
machine if and only if the stock was below 3 before the increment and
at least 3 after it; a Refill handled while the stock is already at
least 3 returns no `StockLevelOk`. -/
theorem refill_handle_correct (machines : List Machine) (qty : Int) (mid : String)
    (m : Machine) (hfind : findMachine machines mid = some m) :
    findMachine (MachineRefillSubscriber.handle machines (.refill qty mid)).1 mid
      = some { m with stockLevel := m.stockLevel + qty }
    ∧ ((MachineRefillSubscriber.handle machines (.refill qty mid)).2
        = some (.stockLevelOk mid)
      ↔ (m.stockLevel < 3 ∧ 3 ≤ m.stockLevel + qty))
    ∧ (3 ≤ m.stockLevel →
        (MachineRefillSubscriber.handle machines (.refill qty mid)).2 = none) := by
  have hid := findMachine_id hfind
  rw [refill_handle_eq qty hfind]
  refine ⟨findMachine_updateStock _ hfind, ?_, ?_⟩
  · by_cases hc : 3 ≤ m.stockLevel + qty ∧ m.stockLevel < 3
    · simp [hc, hid]
    · simp [hc, hid]
      omega
  · intro hhigh
    have hc : ¬ (3 ≤ m.stockLevel + qty ∧ m.stockLevel < 3) := by omega
    simp [hc]

/-- Witness for C2: machine at stock 2, refill of 3 crosses upward. -/
theorem refill_handle_correct_witness :
    findMachine [⟨"001", 2⟩] "001" = some ⟨"001", 2⟩
    ∧ ((MachineRefillSubscriber.handle [⟨"001", 2⟩] (.refill 3 "001")).2
        = some (.stockLevelOk "001")
      ↔ ((⟨"001", 2⟩ : Machine).stockLevel < 3
          ∧ 3 ≤ (⟨"001", 2⟩ : Machine).stockLevel + 3)) :=
  ⟨by decide, (refill_handle_correct [⟨"001", 2⟩] 3 "001" ⟨"001", 2⟩ (by decide)).2.1⟩

/-- C3: with the driver's four subscriptions in place, draining the
single seed event `Sale(quantity = 2)` against a machine at stock 3
terminates with the queue exhausted, the machine back at stock 3, and
exactly the four events Sale, LowStockWarning, Refill(2),
StockLevelOk delivered in that order. -/
theorem cascade_scenario :
    drain initSubs 10 [⟨"001", 3⟩] [.sale 2 "001"]
      = ([⟨"001", 3⟩],
         [.sale 2 "001", .lowStockWarning "001", .refill 2 "001", .stockLevelOk "001"],
         []) := by decide

/-- C4: for every machine registered in the registry and every
`LowStockWarning` event targeting it, the warning subscriber returns
a `Refill` event for that machine of quantity 3 minus the current
stock level, and leaves the machine list unchanged. -/
theorem lowstock_handle_correct (machines : List Machine) (mid : String)
    (m : Machine) (hfind : findMachine machines mid = some m) :
    StockwarningSubscriber.handle machines (.lowStockWarning mid)
      = (machines, some (.refill (3 - m.stockLevel) mid)) := by
  have hid := findMachine_id hfind
  simp [StockwarningSubscriber.handle, hfind, hid]

/-- Witness for C4: machine at stock 1 yields a refill of 2. -/
theorem lowstock_handle_correct_witness :
    findMachine [⟨"001", 1⟩] "001" = some ⟨"001", 1⟩
    ∧ StockwarningSubscriber.handle [⟨"001", 1⟩] (.lowStockWarning "001")
      = ([⟨"001", 1⟩], some (.refill (3 - (⟨"001", 1⟩ : Machine).stockLevel) "001")) :=
  ⟨by decide, lowstock_handle_correct [⟨"001", 1⟩] "001" ⟨"001", 1⟩ (by decide)⟩

/-- C5: every subscriber given an event of a variant other than the
one it is specialized to is a no-op: the machine list is unchanged
and no cascade is returned. -/
theorem mismatched_variant_noop (sub : Subscriber) (machines : List Machine)
    (event : IEvent) (h : expectedVariant sub event = false) :
    Subscriber.handle sub machines event = (machines, none) := by
  cases sub <;> cases event <;>
    simp_all [expectedVariant, Subscriber.handle, MachineSaleSubscriber.handle,
      MachineRefillSubscriber.handle, StockwarningSubscriber.handle,
      StockLevelOkSubscriber.handle]

/-- Witness for C5: the Sale subscriber given a Refill event. -/
theorem mismatched_variant_noop_witness :
    expectedVariant .machineSale (.refill 3 "001") = false
    ∧ Subscriber.handle .machineSale [⟨"001", 3⟩] (.refill 3 "001") = ([⟨"001", 3⟩], none) :=
  ⟨by decide, mismatched_variant_noop .machineSale [⟨"001", 3⟩] (.refill 3 "001") (by decide)⟩

/-- `publish` is exactly `runHandlers` over the subscriber list it
iterates (`forEach` order); with no entry for the type that list is
empty and nothing runs. -/
theorem publish_eq_runHandlers (subs : SubscriberMap) (event : IEvent)
    (machines : List Machine) (events : List IEvent) :
    publish subs event machines events
      = runHandlers (publishInvocations subs event) event machines events := by
  unfold publish publishInvocations
  cases mapGet subs event.type <;> simp [runHandlers]

/-- Adding an element already added again leaves the set unchanged. -/
theorem setAdd_idem (s : List Subscriber) (x : Subscriber) :
    setAdd (setAdd s x) x = setAdd s x := by
  by_cases h : x ∈ s
  · simp [setAdd, h]
  · simp [setAdd, h]

/-- Subscribing twice yields the same map as subscribing once. -/
theorem subscribe_subscribe (subs : SubscriberMap) (ty : String) (sub : Subscriber) :
    subscribe (subscribe subs ty sub) ty sub = subscribe subs ty sub := by
  induction subs with
  | nil => simp [subscribe, setAdd_idem]
  | cons p rest ih =>
    obtain ⟨t, s⟩ := p
    by_cases h : t = ty
    · subst h
      simp [subscribe, setAdd_idem]
    · have hne : (t == ty) = false := by simpa using h
      simp [subscribe, hne, ih]

/-- After `subscribe`, the set stored under the subscribed type is
the previous set (empty when the key was absent) with the subscriber
added. -/
theorem mapGet_subscribe (subs : SubscriberMap) (ty : String) (sub : Subscriber) :
    mapGet (subscribe subs ty sub) ty = some (setAdd ((mapGet subs ty).getD []) sub) := by
  induction subs with
  | nil => simp [subscribe, mapGet]
  | cons p rest ih =>
    obtain ⟨t, s⟩ := p
    by_cases h : t = ty
    · subst h
      simp [subscribe, mapGet]
    · have hne : (t == ty) = false := by simpa using h
      simp [subscribe, mapGet, hne, ih]

/-- C6: `subscribe` is idempotent: subscribing the same subscriber
twice to the same type yields the same subscription state as
subscribing once, and a publish of an event of that type then invokes
that subscriber exactly once (it occurs exactly once in the list
`publish` iterates). -/
theorem subscribe_idempotent (subs : SubscriberMap) (ty : String) (sub : Subscriber)
    (e : IEvent) (hty : e.type = ty)
    (hfresh : ((mapGet subs ty).getD []).count sub = 0) :
    subscribe (subscribe subs ty sub) ty sub = subscribe subs ty sub
    ∧ (publishInvocations (subscribe (subscribe subs ty sub) ty sub) e).count sub = 1 := by
  refine ⟨subscribe_subscribe subs ty sub, ?_⟩
  rw [subscribe_subscribe subs ty sub]
  have hnotmem : sub ∉ (mapGet subs ty).getD [] := by
    intro hm
    rw [List.count_eq_zero] at hfresh
    exact hfresh hm
  unfold publishInvocations
  rw [hty, mapGet_subscribe]
  simp [setAdd, hnotmem, List.count_append, hfresh]

/-- Witness for C6: double-subscribing the Sale subscriber starting
from the empty map, then publishing a sale. -/
theorem subscribe_idempotent_witness :
    (IEvent.sale 1 "001").type = "sale"
    ∧ ((mapGet ([] : SubscriberMap) "sale").getD []).count .machineSale = 0
    ∧ (subscribe (subscribe [] "sale" .machineSale) "sale" .machineSale
        = subscribe [] "sale" .machineSale
      ∧ (publishInvocations (subscribe (subscribe [] "sale" .machineSale) "sale" .machineSale)
          (IEvent.sale 1 "001")).count .machineSale = 1) :=
  ⟨by decide, by decide,
    subscribe_idempotent [] "sale" .machineSale (IEvent.sale 1 "001") (by decide) (by decide)⟩

/-- C7: a Sale or Refill event whose machine id matches no machine in
the registry is a no-op: the machine list is returned unchanged and
no cascade is produced. -/
theorem unknown_machine_noop (machines : List Machine) (q : Int) (mid : String)
    (hfind : findMachine machines mid = none) :
    MachineSaleSubscriber.handle machines (.sale q mid) = (machines, none)
    ∧ MachineRefillSubscriber.handle machines (.refill q mid) = (machines, none) := by
  constructor
  · simp [MachineSaleSubscriber.handle, hfind]
  · simp [MachineRefillSubscriber.handle, hfind]

/-- Witness for C7: machine id 999 is not registered. -/
theorem unknown_machine_noop_witness :
    findMachine [⟨"001", 3⟩] "999" = none
    ∧ (MachineSaleSubscriber.handle [⟨"001", 3⟩] (.sale 1 "999") = ([⟨"001", 3⟩], none)
      ∧ MachineRefillSubscriber.handle [⟨"001", 3⟩] (.refill 1 "999") = ([⟨"001", 3⟩], none)) :=
  ⟨by decide, unknown_machine_noop [⟨"001", 3⟩] 1 "999" (by decide)⟩

/-- C8: publishing an event whose type tag has no entry in the
subscription map is a silent no-op: no subscriber is invoked and the
machine list and pending queue are unchanged. -/
theorem unknown_type_publish_noop (subs : SubscriberMap) (event : IEvent)
    (machines : List Machine) (events : List IEvent)
    (h : mapGet subs event.type = none) :
    publish subs event machines events = (machines, events)
    ∧ publishInvocations subs event = [] := by
  constructor
  · simp [publish, h]
  · simp [publishInvocations, h]

/-- Witness for C8: the empty subscription map. -/
theorem unknown_type_publish_noop_witness :
    mapGet ([] : SubscriberMap) (IEvent.sale 1 "001").type = none
    ∧ (publish [] (IEvent.sale 1 "001") [⟨"001", 3⟩] [] = ([⟨"001", 3⟩], [])
      ∧ publishInvocations [] (IEvent.sale 1 "001") = []) :=
  ⟨by decide, unknown_type_publish_noop [] (IEvent.sale 1 "001") [⟨"001", 3⟩] [] (by decide)⟩

/-- `runHandlers` only appends to the pending list it is given. -/
theorem runHandlers_append (l : List Subscriber) (e : IEvent) :
    ∀ (machines : List Machine) (events : List IEvent),
      runHandlers l e machines events
        = ((runHandlers l e machines []).1, events ++ (runHandlers l e machines []).2) := by
  induction l with
  | nil =>
    intro ms evts
    simp [runHandlers]
  | cons sub rest ih =>
    intro ms evts
    rcases hr : Subscriber.handle sub ms e with ⟨ms', opt⟩
    cases opt with
    | none =>
      simp only [runHandlers, hr]
      exact ih ms' evts
    | some x =>
      simp only [runHandlers, hr]
      rw [ih ms' (evts ++ [x]), ih ms' ([] ++ [x])]
      simp

/-- `publish` only appends to the caller-owned pending list: the
machine result is independent of the pending list and the resulting
list is the given one with the cascades appended at the back. -/
theorem publish_append (subs : SubscriberMap) (e : IEvent) (machines : List Machine)
    (events : List IEvent) :
    (publish subs e machines events).1 = (publish subs e machines []).1
    ∧ (publish subs e machines events).2 = events ++ (publish subs e machines []).2 := by
  unfold publish
  cases mapGet subs e.type with
  | none => simp
  | some set =>
    dsimp only
    rw [runHandlers_append set e machines events]
    simp

/-- C9: queue discipline is FIFO.  `publish` appends every follow-up
event to the back of the caller-owned pending list, and the drain
loop removes events from the front, so the events of any initial
queue segment are delivered in exactly their enqueue order (they form
a prefix of the delivery trace, before any later cascade). -/
theorem fifo_delivery (subs : SubscriberMap) :
    (∀ (e : IEvent) (machines : List Machine) (events : List IEvent),
      (publish subs e machines events).2 = events ++ (publish subs e machines []).2)
    ∧ ∀ (q1 : List IEvent) (fuel : Nat) (machines : List Machine) (q2 : List IEvent),
        q1.length ≤ fuel →
        ∃ rest, (drain subs fuel machines (q1 ++ q2)).2.1 = q1 ++ rest := by
  constructor
  · intro e ms evts
    exact (publish_append subs e ms evts).2
  · intro q1
    induction q1 with
    | nil =>
      intro fuel ms q2 _
      exact ⟨(drain subs fuel ms q2).2.1, by simp⟩
    | cons e q1 ih =>
      intro fuel ms q2 h
      cases fuel with
      | zero => simp at h
      | succ n =>
        have hlen : q1.length ≤ n := by simpa using h
        rcases hp : publish subs e ms (q1 ++ q2) with ⟨ms', pending⟩
        have hpend : pending = q1 ++ (q2 ++ (publish subs e ms []).2) := by
          have h2 := (publish_append subs e ms (q1 ++ q2)).2
          rw [hp] at h2
          simpa using h2
        obtain ⟨rest, hrest⟩ := ih n ms' (q2 ++ (publish subs e ms []).2) hlen
        refine ⟨rest, ?_⟩
        rcases hd : drain subs n ms' pending with ⟨fm, tr, lo⟩
        have htrace : (drain subs (n + 1) ms ((e :: q1) ++ q2)).2.1 = e :: tr := by
          simp [drain, hp, hd]
        have htr : tr = q1 ++ rest := by
          rw [hpend] at hd
          rw [hd] at hrest
          simpa using hrest
        rw [htrace, htr]
        simp

/-- Witness for C9: two seeded sales are delivered in enqueue order. -/
theorem fifo_delivery_witness :
    ∃ rest, (drain initSubs 2 [⟨"001", 3⟩]
        ([IEvent.sale 1 "001", IEvent.sale 1 "001"] ++ [])).2.1
      = [IEvent.sale 1 "001", IEvent.sale 1 "001"] ++ rest :=
  (fifo_delivery initSubs).2 [IEvent.sale 1 "001", IEvent.sale 1 "001"] 2 [⟨"001", 3⟩] []
    (by decide)

/-- `publishB` never writes the `subscribers` field. -/
theorem publishB_subscribers (s : BusState) (e : IEvent) :
    (publishB s e).subscribers = s.subscribers := by
  unfold publishB
  cases mapGet s.subscribers e.type <;> rfl

/-- C10: `publish` never modifies the subscription registry: after a
single publish, and after a whole drain of the queue (all cascades
included), the mapping from event type to subscriber set is exactly
what it was before. -/
theorem publish_frame (fuel : Nat) (s : BusState) (e : IEvent) :
    (publishB s e).subscribers = s.subscribers
    ∧ (drainB fuel s).subscribers = s.subscribers := by
  refine ⟨publishB_subscribers s e, ?_⟩
  induction fuel generalizing s with
  | zero => rfl
  | succ n ih =>
    cases hs : s.events with
    | nil => simp [drainB, hs]
    | cons e' rest =>
      simp only [drainB, hs]
      rw [ih]
      exact publishB_subscribers _ e'

end SimplePubSub
